import Mathlib

/-!
Shallow embedding of the task-ledger cron engine (`src/api/cron.js`,
richest variant, lines 1-327) in Lean 4.

JavaScript strings are modelled as Lean `String`s (lengths count Unicode
scalar values where JS counts UTF-16 units; the algorithms below are
parametric in the length function so this does not affect the properties
proved).  Machine numbers are modelled as `Int` (all the arithmetic the
code performs stays well inside the exact-integer range of JS numbers).
JS `undefined` is modelled as `Option.none`, and JS truthiness of ids,
strings and timestamps is made explicit by the `jsOr*` helpers below.
-/

namespace Cron

/-- JS `a || b` on optional numeric ids: `undefined` and `0` are falsy. -/
def jsOrId (x y : Option Int) : Option Int :=
  match x with
  | some v => if v ≠ 0 then some v else y
  | none => y

/-- JS truthiness of an optional numeric id (`undefined` and `0` are falsy). -/
def jsTruthyId (x : Option Int) : Bool :=
  match x with
  | some v => v ≠ 0
  | none => false

/-- JS `a || b` on optional strings: `undefined` and `""` are falsy. -/
def jsOrStr (x : Option String) (y : Option String) : Option String :=
  match x with
  | some s => if s ≠ "" then some s else y
  | none => y

/-- JS `String(x)` for an optional numeric id: `undefined` prints as "undefined". -/
def optIdStr (x : Option Int) : String :=
  match x with
  | some v => toString v
  | none => "undefined"

/-- The character class `\s` of JS regular expressions. -/
def jsWs (c : Char) : Bool :=
  c.toNat = 0x09 || c.toNat = 0x0A || c.toNat = 0x0B || c.toNat = 0x0C ||
  c.toNat = 0x0D || c.toNat = 0x20 || c.toNat = 0xA0 || c.toNat = 0x1680 ||
  (0x2000 ≤ c.toNat && c.toNat ≤ 0x200A) || c.toNat = 0x2028 ||
  c.toNat = 0x2029 || c.toNat = 0x202F || c.toNat = 0x205F ||
  c.toNat = 0x3000 || c.toNat = 0xFEFF

/-- `String(s).replace(/\s+/g, ' ')`: each maximal run of whitespace becomes
one space.  The flag records whether the previous character was whitespace. -/
def collapseWsAux : Bool → List Char → List Char
  | _, [] => []
  | prevWs, c :: rest =>
    if jsWs c then
      (if prevWs then [] else [' ']) ++ collapseWsAux true rest
    else
      c :: collapseWsAux false rest

def collapseWs (l : List Char) : List Char := collapseWsAux false l

/-- `.trim()` on a list of characters (drop JS whitespace at both ends). -/
def jsTrim (l : List Char) : List Char :=
  ((l.dropWhile jsWs).reverse.dropWhile jsWs).reverse

/-- The ellipsis character appended by `snippet` (U+2026). -/
def ellipsisChar : Char := Char.ofNat 0x2026

/-- `snippet(s, max)` from `src/api/cron.js` lines 92-96: whitespace-normalise,
trim, and truncate to `max` characters with a trailing ellipsis. -/
def snippet (s : String) (max : Nat := 140) : String :=
  if s = "" then ""
  else
    let clean := jsTrim (collapseWs s.toList)
    if clean.length > max then
      String.mk (clean.take (max - 1)) ++ String.singleton ellipsisChar
    else
      String.mk clean

/-- `ageDays(fromTs, nowTs)` from `src/api/cron.js` lines 102-105.
`!fromTs` is true exactly for timestamp `0`; `Int` division by the positive
constant is floor division, matching `Math.floor`. -/
def ageDays (fromTs nowTs : Int) : Int :=
  if fromTs = 0 ∨ fromTs > nowTs then 0
  else (nowTs - fromTs) / 86400000

/-- `htmlEscape` from `src/api/cron.js` lines 85-90.  The source performs three
sequential global replaces (`&` first); since the replacement texts introduce
no further `&`, `<` or `>` beyond the escape itself, this equals the
character-wise map below. -/
def htmlEscapeChar (c : Char) : String :=
  if c = '&' then "&amp;"
  else if c = '<' then "&lt;"
  else if c = '>' then "&gt;"
  else String.singleton c

def htmlEscape (s : String) : String :=
  String.join (s.toList.map htmlEscapeChar)

/-- First segment of `split(/\r?\n/)`: the characters before the first `'\n'`,
with a directly preceding `'\r'` belonging to the separator. -/
def firstSplitLine (l : List Char) : List Char :=
  let pre := l.takeWhile (· ≠ '\n')
  if pre.getLast? = some '\r' then pre.dropLast else pre

/-- `taskTitle` from `src/api/cron.js` lines 107-110. -/
def taskTitle (text : String) : String :=
  let first := String.mk (jsTrim (firstSplitLine text.toList))
  snippet first 200

/-- Directional control characters used by the renderer. -/
def LRM : String := String.singleton (Char.ofNat 0x200E)

def bulletChar : Char := Char.ofNat 0x2022

/-- `formatTaskLine` from `src/api/cron.js` lines 112-116. -/
def formatTaskLineStr (title : String) (days : Int) : String :=
  String.singleton bulletChar ++ " " ++ htmlEscape title ++ " <b>" ++ LRM ++
    "[" ++ toString days ++ "d]</b>"

/-- `chunkMessages` from `src/api/cron.js` lines 120-133, as a recursion over
the remaining lines with the accumulator `cur`. -/
def chunkGo (maxLen : Nat) (cur : String) : List String → List String
  | [] => if cur ≠ "" then [cur] else []
  | line :: rest =>
    let add := line ++ "\n"
    if (cur ++ add).length > maxLen then
      (if cur ≠ "" then [cur] else []) ++ chunkGo maxLen add rest
    else
      chunkGo maxLen (cur ++ add) rest

def chunkMessages (lines : List String) (maxLen : Nat := 3800) : List String :=
  chunkGo maxLen "" lines

/-- The thumbs-up base codepoint (U+1F44D) of `THUMBS_UP_RE`. -/
def thumbCp : Nat := 0x1F44D

/-- The five skin-tone modifier codepoints of `THUMBS_UP_RE`. -/
def skinTones : List Nat := [0x1F3FB, 0x1F3FC, 0x1F3FD, 0x1F3FE, 0x1F3FF]

/-- Whether `THUMBS_UP_RE` (`/\u{1F44D}(?:\u{1F3FB}|...|\u{1F3FF})?/u`)
matches starting at the head of the codepoint sequence: the optional
skin-tone suffix makes the bare base glyph sufficient. -/
def thumbsMatchHere : List Nat → Bool
  | [] => false
  | c :: _ => c == thumbCp

/-- `THUMBS_UP_RE.test(s)`: an unanchored regex test, i.e. a match may start
at any position of the codepoint sequence. -/
def thumbsUpTest : List Nat → Bool
  | [] => false
  | c :: rest => thumbsMatchHere (c :: rest) || thumbsUpTest rest

/-- `THUMBS_UP_RE.test` on a Lean string (codepoints = Unicode scalars). -/
def thumbsUpTestStr (s : String) : Bool :=
  thumbsUpTest (s.toList.map Char.toNat)

/-- The codepoint ranges of `EMOJI_REGEX` (`src/api/cron.js` line 72). -/
def emojiRegexChar (c : Char) : Bool :=
  (0x1F1E6 ≤ c.toNat && c.toNat ≤ 0x1F1FF) ||
  (0x1F300 ≤ c.toNat && c.toNat ≤ 0x1F5FF) ||
  (0x1F600 ≤ c.toNat && c.toNat ≤ 0x1F64F) ||
  (0x1F680 ≤ c.toNat && c.toNat ≤ 0x1F6FF) ||
  (0x2600 ≤ c.toNat && c.toNat ≤ 0x26FF) ||
  (0x2700 ≤ c.toNat && c.toNat ≤ 0x27BF) ||
  (0x1F900 ≤ c.toNat && c.toNat ≤ 0x1F9FF) ||
  (0x1FA70 ≤ c.toNat && c.toNat ≤ 0x1FAFF)

/-- `hasEmoji` from `src/api/cron.js` lines 75-78 (`!text` ⇔ empty string). -/
def hasEmoji (text : String) : Bool :=
  if text = "" then false else text.toList.any emojiRegexChar

/-! ## Data model: tasks, the key-value ledger, and feed updates -/

/-- A stored task record (`src/api/cron.js` lines 242-249).  A freshly created
record carries no `doneAt` field; a close adds it. -/
structure Task where
  id : String
  chat_id : Int
  message_id : Int
  createdAt : Int
  text : String
  done : Bool
  doneAt : Option Int
deriving Repr, DecidableEq

/-- A value held by the key-value store: either a well-formed serialized task
or a string that `JSON.parse` rejects (deserialization failure is treated as
absent by every reader). -/
inductive StoredVal where
  | good (t : Task)
  | corrupt
deriving Repr, DecidableEq

/-- The key-value ledger, modelled as an association list with unique keys
(the external store keys are unique); `kvSet` replaces in place. -/
def Store := List (String × StoredVal)

instance : DecidableEq Store := inferInstanceAs (DecidableEq (List (String × StoredVal)))

def kvGet : Store → String → Option StoredVal
  | [], _ => none
  | (k', v) :: rest, k => if k' = k then some v else kvGet rest k

def kvSet : Store → String → StoredVal → Store
  | [], k, v => [(k, v)]
  | (k', v') :: rest, k, v =>
    if k' = k then (k, v) :: rest else (k', v') :: kvSet rest k v

/-- A chat object as inspected by the handler. -/
structure Chat where
  id : Int
  type : String
deriving Repr, DecidableEq

/-- One element of a reaction event's emoji array, after the
`new_reaction || new_reactions || reaction || reactions || []` field
selection: a plain string, an object (with optional `emoji` / `value`
string fields), or a non-object/null entry. -/
inductive ReactionItem where
  | str (s : String)
  | obj (emoji : Option String) (value : Option String)
  | nullItem
deriving Repr, DecidableEq

/-- `extractReactionEmojis` from `src/api/cron.js` lines 135-147, applied to
the already-selected reaction array. -/
def extractReactionEmojis : List ReactionItem → List String
  | [] => []
  | .nullItem :: rest => extractReactionEmojis rest
  | .str s :: rest => s :: extractReactionEmojis rest
  | .obj (some e) _ :: rest => e :: extractReactionEmojis rest
  | .obj none (some v) :: rest => v :: extractReactionEmojis rest
  | .obj none none :: rest => extractReactionEmojis rest

/-- A `message_reaction` feed event as inspected by lines 190-213. -/
structure ReactionEv where
  chat : Option Chat
  userId : Option Int
  fromId : Option Int
  items : List ReactionItem
  message_id : Option Int
  msgMessageId : Option Int
  msg_id : Option Int
deriving Repr, DecidableEq

/-- A `message` feed event as inspected by lines 216-252. -/
structure MsgEv where
  chat : Option Chat
  fromId : Option Int
  message_id : Int
  date : Option Int
  text : Option String
  caption : Option String
  reply_to : Option Int
deriving Repr, DecidableEq

/-- One drained feed update.  `uUserId`/`uFromId` model the `u.user?.id` /
`u.from?.id` fallbacks of the reaction-actor chain. -/
structure UpdateRec where
  update_id : Int
  message_reaction : Option ReactionEv
  message : Option MsgEv
  channelPost : Option MsgEv
  uUserId : Option Int
  uFromId : Option Int
deriving Repr, DecidableEq

/-- `m.text || m.caption || ''`. -/
def msgText (m : MsgEv) : String :=
  (jsOrStr m.text (jsOrStr m.caption (some ""))).getD ""

/-- The ledger key `task:<chatId>:<messageId>`. -/
def taskKey (chatId msgId : Int) : String :=
  "task:" ++ toString chatId ++ ":" ++ toString msgId

/-- The record written by the create-task branch (lines 242-249). -/
def mkTask (chatId msgId : Int) (date : Option Int) (text : String) : Task :=
  { id := toString chatId ++ ":" ++ toString msgId
    chat_id := chatId
    message_id := msgId
    createdAt := (date.getD 0) * 1000
    text := snippet text 400
    done := false
    doneAt := none }

/-- The close mutation (lines 204-207 / 233-236): `obj.done = true;
obj.doneAt = Date.now()`. -/
def closeTask (t : Task) (now : Int) : Task :=
  { t with done := true, doneAt := some now }

/-- Apply a close at `key`: if the lookup yields a readable record, overwrite
it with the closed record; a missing or corrupt value leaves the store
untouched (`JSON.parse` failure hits the surrounding `try`). -/
def applyClose (st : Store) (key : String) (now : Int) : Store :=
  match kvGet st key with
  | some (.good t) => kvSet st key (.good (closeTask t now))
  | some .corrupt => st
  | none => st

/-- One step of the update-apply loop (`src/api/cron.js` lines 189-253).
`admin` is the `ADMIN_CHAT_ID` environment string and `now` the value of
`Date.now()` during the run. -/
def applyUpdate (admin : String) (now : Int) (st : Store) (u : UpdateRec) : Store :=
  match u.message_reaction with
  | some mr =>
    (match mr.chat with
     | some chat =>
       let actorId := jsOrId mr.userId (jsOrId mr.fromId (jsOrId u.uUserId u.uFromId))
       if chat.type = "private" ∧ optIdStr actorId = admin then
         let emojis := extractReactionEmojis mr.items
         let hasThumb := emojis.any thumbsUpTestStr
         let target := jsOrId mr.message_id (jsOrId mr.msgMessageId mr.msg_id)
         if hasThumb ∧ jsTruthyId target then
           applyClose st (taskKey chat.id (target.getD 0)) now
         else st
       else st
     | none => st)
  | none =>
    match u.message with
    | none => st
    | some m =>
      match m.chat with
      | none => st
      | some chat =>
        if chat.type ≠ "private" then st
        else if optIdStr m.fromId ≠ admin then st
        else
          let text := msgText m
          let isThumb := if text ≠ "" then thumbsUpTestStr text else false
          let keyBase := taskKey chat.id m.message_id
          match m.reply_to with
          | some repliedId =>
            if isThumb then applyClose st (taskKey chat.id repliedId) now
            else st
          | none =>
            if text ≠ "" ∧ isThumb = false then
              kvSet st keyBase (.good (mkTask chat.id m.message_id m.date text))
            else st

/-- The full apply loop over the drained updates, in feed order. -/
def runUpdates (admin : String) (now : Int) (st : Store) (us : List UpdateRec) : Store :=
  us.foldl (applyUpdate admin now) st

/-! ## Report renderer (lines 263-287) -/

/-- Prefix test on strings, character-structural (the `task:<chat>:*` glob
of the `SCAN` match pattern). -/
def strStartsWith (s pfx : String) : Bool := pfx.toList.isPrefixOf s.toList

/-- The store's keys matching the `task:<ADMIN_CHAT_ID>:*` glob, in store
order: the key set a complete scan of the store enumerates. -/
def matchingKeys (st : Store) (admin : String) : List String :=
  (st.map Prod.fst).filter (fun k => strStartsWith k ("task:" ++ admin ++ ":"))

/-- The key-collection loop of `src/api/cron.js` lines 265-274.  The SCAN
collaborator's paging is modelled by the sequence of key pages it serves
for the match pattern (the returned cursor is `"0"` exactly when no page
remains; a scan error aborting the loop, swallowed by the surrounding
`catch`, corresponds to serving only a prefix of the pages).  Transcribing
`do { ...push page keys... } while (cursor !== '0' && keys.length < 5000)`:
append each page's keys and continue while pages remain and fewer than
5000 keys have been accumulated. -/
def scanCollect : List (List String) → List String → List String
  | [], acc => acc
  | page :: rest, acc =>
    if (acc ++ page).length < 5000 then scanCollect rest (acc ++ page)
    else acc ++ page

/-- Sort comparator `(a, b) => a.createdAt - b.createdAt`. -/
def byCreatedAt (a b : Task) : Bool := a.createdAt ≤ b.createdAt

/-- The task list the report is built from, given the pages the scan with
pattern `task:<admin>:*` serves: collect keys under the 5000-key cap, read
each, skip missing/corrupt values and records with `done` set, then sort
ascending by `createdAt` (JS `Array.prototype.sort` is stable; so is
`mergeSort`). -/
def reportTasks (st : Store) (_admin : String) (pages : List (List String)) : List Task :=
  let tasks := (scanCollect pages []).filterMap fun k =>
    match kvGet st k with
    | some (.good t) => if t.done then none else some t
    | _ => none
  tasks.mergeSort byCreatedAt

def formatTaskLine (t : Task) (now : Int) : String :=
  formatTaskLineStr (taskTitle t.text) (ageDays t.createdAt now)

def reportLines (st : Store) (admin : String) (now : Int)
    (pages : List (List String)) : List String :=
  (reportTasks st admin pages).map (formatTaskLine · now)

/-! ## Update Drainer (`fetchAllUpdates`, lines 149-162) -/

/-- One `getUpdates` response; an absent `result` is already absorbed into
the empty list (`resp.result || []`). -/
structure FeedResp where
  ok : Bool
  result : List UpdateRec
deriving Repr

/-- The drain loop: fetch a batch at `offset`; a non-ok response is fatal;
an empty batch stops with the current offset; otherwise append the batch,
advance the offset past the batch's last update, and stop if the cumulative
count exceeds the 2000 safety cap. -/
def fetchLoop (fetch : Option Int → FeedResp) (offset : Option Int)
    (all : List UpdateRec) : Except String (List UpdateRec × Option Int) :=
  let resp := fetch offset
  if resp.ok = true then
    match resp.result with
    | [] => .ok (all, offset)
    | u :: us =>
      let offset' := some (((u :: us).getLast (by simp)).update_id + 1)
      if h2 : (all ++ u :: us).length > 2000 then .ok (all ++ u :: us, offset')
      else fetchLoop fetch offset' (all ++ u :: us)
  else .error "getUpdates error"
termination_by 2001 - all.length
decreasing_by
  simp only [List.length_append, List.length_cons] at h2 ⊢
  omega

def fetchAllUpdates (fetch : Option Int → FeedResp) (startOffset : Option Int) :
    Except String (List UpdateRec × Option Int) :=
  fetchLoop fetch startOffset []

/-- The successive batches the drain loop consumes (same traversal as
`fetchLoop`, recording each batch instead of flattening). -/
def fetchTrace (fetch : Option Int → FeedResp) (offset : Option Int)
    (all : List UpdateRec) : List (List UpdateRec) :=
  let resp := fetch offset
  if resp.ok = true then
    match resp.result with
    | [] => []
    | u :: us =>
      let offset' := some (((u :: us).getLast (by simp)).update_id + 1)
      if h2 : (all ++ u :: us).length > 2000 then [u :: us]
      else (u :: us) :: fetchTrace fetch offset' (all ++ u :: us)
  else []
termination_by 2001 - all.length
decreasing_by
  simp only [List.length_append, List.length_cons] at h2 ⊢
  omega

/-! ## Fallback report (no key-value store configured, lines 289-305) -/

/-- Extra chat fields used only by the fallback label. -/
structure ChatMeta where
  title : Option String
  username : Option String
deriving Repr, DecidableEq

/-- `u.message || u.channel_post` (an object is always truthy). -/
def msgOf (u : UpdateRec) : Option MsgEv :=
  match u.message with
  | some m => some m
  | none => u.channelPost

/-- `m?.date ? m.date * 1000 : 0`. -/
def fallbackTs (u : UpdateRec) : Int :=
  match msgOf u with
  | some m => match m.date with
    | some d => if d ≠ 0 then d * 1000 else 0
    | none => 0
  | none => 0

/-- `m?.text || m?.caption || ''`. -/
def fallbackText (u : UpdateRec) : String :=
  match msgOf u with
  | some m => msgText m
  | none => ""

/-- The filter of lines 290-297: keep updates from the last 24 hours whose
text is non-empty and contains no emoji. -/
def fallbackCandidates (updates : List UpdateRec) (since : Int) : List UpdateRec :=
  updates.filter fun u =>
    let ts := fallbackTs u
    if ts = 0 ∨ ts < since then false
    else
      let text := fallbackText u
      if text = "" then false else !(hasEmoji text)

/-- Days-to-civil-date conversion (proleptic Gregorian), used to model
`new Date(ts).toISOString().slice(0, 10)`. -/
def civilFromDays (z0 : Int) : Int × Int × Int :=
  let z := z0 + 719468
  let era := z / 146097
  let doe := z - era * 146097
  let yoe := (doe - doe / 1460 + doe / 36524 - doe / 146096) / 365
  let doy := doe - (365 * yoe + yoe / 4 - yoe / 100)
  let mp := (5 * doy + 2) / 153
  let d := doy - (153 * mp + 2) / 5 + 1
  let m := mp + (if mp < 10 then 3 else -9)
  let y := yoe + era * 400 + (if m ≤ 2 then 1 else 0)
  (y, m, d)

/-- Decimal rendering of a non-negative integer left-padded with zeros. -/
def padNum (width : Nat) (n : Int) : String :=
  let s := toString n.toNat
  String.mk (List.replicate (width - s.length) '0') ++ s

/-- `formatDate` from lines 98-100: the first ten characters of the ISO
rendering of the timestamp; an out-of-range timestamp makes `toISOString`
throw, which the source catches and turns into `""`.  Years outside
0..9999 use the expanded `±YYYYYY` form, of which `slice(0, 10)` retains
the sign, six year digits and the month. -/
def formatDate (ts : Int) : String :=
  if 8640000000000000 < ts.natAbs then ""
  else
    let (y, m, d) := civilFromDays (ts / 86400000)
    if 0 ≤ y ∧ y ≤ 9999 then
      padNum 4 y ++ "-" ++ padNum 2 m ++ "-" ++ padNum 2 d
    else if y < 0 then "-" ++ padNum 6 (-y) ++ "-" ++ padNum 2 m
    else "+" ++ padNum 6 y ++ "-" ++ padNum 2 m

/-- The fallback label `m?.chat?.title || m?.chat?.username ||
`chat:${m?.chat?.id}``; the chat metadata is supplied separately since the
core `Chat` record only carries what the classifier inspects. -/
def chatLabel (m : Option MsgEv) (meta : Option ChatMeta) : String :=
  let fromMeta := match meta with
    | some md => jsOrStr md.title (jsOrStr md.username none)
    | none => none
  match fromMeta with
  | some s => s
  | none =>
    "chat:" ++ (match m with
      | some mm => (match mm.chat with
        | some c => toString c.id
        | none => "undefined")
      | none => "undefined")

/-- One rendered fallback line (line 298-304). -/
def fallbackLine (now : Int) (meta : Option ChatMeta) (u : UpdateRec) : String :=
  let m := msgOf u
  let ts := match m with
    | some mm => (match mm.date with
      | some d => if d ≠ 0 then d * 1000 else now
      | none => now)
    | none => now
  let label := chatLabel m meta
  let txt := snippet (fallbackText u) 140
  String.singleton bulletChar ++ " <b>" ++ htmlEscape label ++ "</b> <i>" ++ LRM ++
    "[" ++ formatDate ts ++ "]</i>: " ++ htmlEscape txt

def fallbackLines (updates : List UpdateRec) (now : Int)
    (meta : Option ChatMeta) : List String :=
  (fallbackCandidates updates (now - 24 * 60 * 60 * 1000)).map (fallbackLine now meta)

/-! ## Run Controller / HTTP entry point (lines 164-327) -/

/-- The relevant environment configuration. -/
structure Env where
  tgToken : Option String
  adminChatId : Option String
  cronSecret : Option String
  upstashUrl : Option String
  upstashToken : Option String

/-- JS truthiness of an optional environment string. -/
def jsTruthyStrOpt : Option String → Bool
  | some s => s ≠ ""
  | none => false

/-- The observable HTTP response of one run: `401 {error}`, `500` for missing
configuration, `200 {ok: true, checked, reported}`, or the `500` produced by
the catch-all error handler. -/
inductive HttpOutcome where
  | unauthorized
  | missingEnv
  | success (checked reported : Nat)
  | failure (err : String)
deriving Repr, DecidableEq

/-- The HTTP entry point (`module.exports`), reduced to its observable
response and the final ledger state.  Outbound `sendMessage` calls are
effects on an external collaborator and carry no information back into the
response.  `now` stands for `Date.now()` during the run, `reqKey` for the
request's `key` query parameter, `meta` for the fallback chat metadata, and
`scanPages` for the pages the key-value store's SCAN serves this run. -/
def handler (env : Env) (reqKey : Option String) (fetch : Option Int → FeedResp)
    (st : Store) (now : Int) (meta : Option ChatMeta)
    (scanPages : List (List String)) : HttpOutcome × Store :=
  if jsTruthyStrOpt env.cronSecret ∧ reqKey.getD "" ≠ env.cronSecret.getD "" then
    (.unauthorized, st)
  else if ¬ (jsTruthyStrOpt env.tgToken = true ∧ jsTruthyStrOpt env.adminChatId = true) then
    (.missingEnv, st)
  else
    match fetchAllUpdates fetch none with
    | .error e => (.failure e, st)
    | .ok (updates, _) =>
      let haveKV := jsTruthyStrOpt env.upstashUrl && jsTruthyStrOpt env.upstashToken
      let admin := env.adminChatId.getD ""
      if haveKV then
        let st' := runUpdates admin now st updates
        let lines := reportLines st' admin now scanPages
        (.success updates.length lines.length, st')
      else
        let lines := fallbackLines updates now meta
        (.success updates.length lines.length, st)

/-! ## Helper notions used by the theorems -/

/-- Rendering of a group of lines, each followed by its newline separator. -/
def renderGroup : List String → String
  | [] => ""
  | l :: rest => (l ++ "\n") ++ renderGroup rest

/-- The guards under which the handler treats an update as a close action
targeting ledger key `k`: either a thumbs-up reaction by the owner in a
private chat carrying a target message id, or an owner message in a private
chat that replies to a message and whose text matches the thumbs-up regex. -/
def IsCloseAction (admin : String) (u : UpdateRec) (k : String) : Prop :=
  (∃ mr chat, u.message_reaction = some mr ∧ mr.chat = some chat ∧
    chat.type = "private" ∧
    optIdStr (jsOrId mr.userId (jsOrId mr.fromId (jsOrId u.uUserId u.uFromId))) = admin ∧
    (extractReactionEmojis mr.items).any thumbsUpTestStr = true ∧
    jsTruthyId (jsOrId mr.message_id (jsOrId mr.msgMessageId mr.msg_id)) = true ∧
    k = taskKey chat.id ((jsOrId mr.message_id (jsOrId mr.msgMessageId mr.msg_id)).getD 0))
  ∨
  (u.message_reaction = none ∧ ∃ m chat rid, u.message = some m ∧ m.chat = some chat ∧
    chat.type = "private" ∧ optIdStr m.fromId = admin ∧
    m.reply_to = some rid ∧ thumbsUpTestStr (msgText m) = true ∧
    k = taskKey chat.id rid)

/-- The guards under which the handler treats an update as a create action
writing record `T` at key `k`. -/
def IsCreateAction (admin : String) (u : UpdateRec) (k : String) (T : Task) : Prop :=
  u.message_reaction = none ∧ ∃ m chat, u.message = some m ∧ m.chat = some chat ∧
    chat.type = "private" ∧ optIdStr m.fromId = admin ∧ m.reply_to = none ∧
    msgText m ≠ "" ∧ thumbsUpTestStr (msgText m) = false ∧
    k = taskKey chat.id m.message_id ∧ T = mkTask chat.id m.message_id m.date (msgText m)

/-- The records of the ledger the spec's report clause talks about: readable
(`good`), under the watch conversation's key prefix, and not done. -/
def openRecords (st : Store) (admin : String) : List Task :=
  st.filterMap fun kv =>
    match kv.2 with
    | .good t =>
      if strStartsWith kv.1 ("task:" ++ admin ++ ":") ∧ t.done = false then some t else none
    | .corrupt => none

/-- The unsorted task list the report reads (the `let tasks := ...` of
`reportTasks`), named for the proofs. -/
def preTasks (st : Store) (pages : List (List String)) : List Task :=
  (scanCollect pages []).filterMap fun k =>
    match kvGet st k with
    | some (.good t) => if t.done then none else some t
    | _ => none

/-- The task list read when the enumeration is complete and untruncated:
one read per matching key, in store order. -/
def fullScanTasks (st : Store) (admin : String) : List Task :=
  (matchingKeys st admin).filterMap fun k =>
    match kvGet st k with
    | some (.good t) => if t.done then none else some t
    | _ => none

/-- A two-page scan trace serving the three sample keys. -/
def sampleScanPages : List (List String) := [[taskKey 7 2], [taskKey 7 1, taskKey 7 3]]

/-! ### Concrete sample data for counterexamples and witnesses -/

/-- The thumbs-up glyph U+1F44D as a string. -/
def thumbString : String := String.singleton (Char.ofNat 0x1F44D)

/-- A task record that is already closed, with `doneAt = 5`. -/
def sampleDoneTask : Task :=
  { id := "7:1", chat_id := 7, message_id := 1, createdAt := 100,
    text := "buy milk", done := true, doneAt := some 5 }

/-- A one-record ledger holding the closed task at `task:7:1`. -/
def sampleDoneStore : Store := [(taskKey 7 1, .good sampleDoneTask)]

/-- A thumbs-up reaction by owner `7` in the private chat `7`, targeting
message `1`. -/
def sampleReactionClose : UpdateRec :=
  ⟨1, some ⟨some ⟨7, "private"⟩, some 7, none, [.str thumbString], some 1, none, none⟩,
    none, none, none, none⟩

/-- An owner message "hello" (message id 1, sent at second 50) in the
private chat `7`, not a reply. -/
def sampleCreateMsg : MsgEv := ⟨some ⟨7, "private"⟩, some 7, 1, some 50, some "hello", none, none⟩

def sampleCreateUpdate : UpdateRec := ⟨2, none, some sampleCreateMsg, none, none, none⟩

/-- An owner message whose text is exactly the thumbs-up glyph, replying to
message `1`. -/
def sampleReplyClose : UpdateRec :=
  ⟨3, none, some ⟨some ⟨7, "private"⟩, some 7, 5, some 60, some thumbString, none, some 1⟩,
    none, none, none⟩

/-- An open task created at 200. -/
def sampleOpenTaskA : Task :=
  { id := "7:2", chat_id := 7, message_id := 2, createdAt := 200,
    text := "call sam", done := false, doneAt := none }

/-- An open task created at 90. -/
def sampleOpenTaskB : Task :=
  { id := "7:3", chat_id := 7, message_id := 3, createdAt := 90,
    text := "pay rent", done := false, doneAt := none }

/-- A three-record ledger: two open tasks (created at 200 and 90) and one
closed task, all under chat `7`. -/
def sampleReportStore : Store :=
  [(taskKey 7 2, .good sampleOpenTaskA),
   (taskKey 7 1, .good sampleDoneTask),
   (taskKey 7 3, .good sampleOpenTaskB)]

lemma thumbsUpTestStr_empty : thumbsUpTestStr "" = false := rfl

lemma kvSet_of_get_eq (st : Store) (k : String) (v : StoredVal)
    (h : kvGet st k = some v) : kvSet st k v = st := by
  induction st with
  | nil => simp [kvGet] at h
  | cons kv rest ih =>
    obtain ⟨k', v'⟩ := kv
    by_cases hk : k' = k
    · subst hk
      simp [kvGet] at h
      simp [kvSet, h]
    · simp [kvGet, hk] at h
      simp [kvSet, hk, ih h]

/-- Applying an update that meets the close guards is exactly a close at the
target key. -/
lemma applyUpdate_close (admin : String) (now : Int) (st : Store) (u : UpdateRec)
    (k : String) (h : IsCloseAction admin u k) :
    applyUpdate admin now st u = applyClose st k now := by
  rcases h with ⟨mr, chat, hmr, hchat, htype, hactor, hthumb, htarget, hk⟩ |
    ⟨hmr, m, chat, rid, hm, hchat, htype, hfrom, hrep, hthumb, hk⟩
  · simp [applyUpdate, hmr, hchat, htype, hactor, hthumb, htarget, hk]
  · have htext : msgText m ≠ "" := by
      intro hcon
      rw [hcon, thumbsUpTestStr_empty] at hthumb
      exact Bool.false_ne_true hthumb
    simp [applyUpdate, hmr, hm, hchat, htype, hfrom, hrep, hk, htext, hthumb]

/-- Applying an update that meets the create guards is exactly a blind
overwrite of key `k` with the fresh record `T`. -/
lemma applyUpdate_create (admin : String) (now : Int) (st : Store) (u : UpdateRec)
    (k : String) (T : Task) (h : IsCreateAction admin u k T) :
    applyUpdate admin now st u = kvSet st k (.good T) := by
  obtain ⟨hmr, m, chat, hm, hchat, htype, hfrom, hrep, htext, hthumb, hk, hT⟩ := h
  simp [applyUpdate, hmr, hm, hchat, htype, hfrom, hrep, htext, hthumb, hk, hT]

/-! ## Claim C10: `ageDays` -/

/-- C10: `ageDays` never returns a negative value; a zero or future creation
timestamp yields `0`, and otherwise the result is exactly the floor of
`(now - createdAt) / 86400000`, characterised by the two floor bounds. -/
theorem ageDays_floor_nonneg (f n : Int) :
    0 ≤ ageDays f n
    ∧ ((f = 0 ∨ n < f) → ageDays f n = 0)
    ∧ (f ≠ 0 → f ≤ n →
        ageDays f n * 86400000 ≤ n - f ∧ n - f < ageDays f n * 86400000 + 86400000) := by
  refine ⟨?_, ?_, ?_⟩
  · unfold ageDays
    split
    · exact le_refl 0
    · exact Int.ediv_nonneg (by omega) (by norm_num)
  · intro h
    unfold ageDays
    split
    · rfl
    · omega
  · intro h0 hle
    unfold ageDays
    split
    · omega
    · have h1 := Int.ediv_add_emod (n - f) 86400000
      have h2 := Int.emod_nonneg (n - f) (by norm_num : (86400000:Int) ≠ 0)
      have h3 := Int.emod_lt_of_pos (n - f) (by norm_num : (0:Int) < 86400000)
      omega

/-- C10 witness: concrete evaluations through the theorem. -/
theorem ageDays_floor_nonneg_witness :
    ageDays 0 5 = 0 ∧ 0 ≤ ageDays 3 90000003
    ∧ ageDays 3 90000003 * 86400000 ≤ 90000000
    ∧ (90000000:Int) < ageDays 3 90000003 * 86400000 + 86400000 := by
  have h := ageDays_floor_nonneg 3 90000003
  have h0 := ageDays_floor_nonneg 0 5
  have hm := h.2.2 (by norm_num) (by norm_num)
  exact ⟨h0.2.1 (Or.inl rfl), h.1, by simpa using hm.1, by simpa using hm.2⟩

/-! ## Claim C5: thumbs-up variant matching -/

/-- C5: `THUMBS_UP_RE` recognises the base thumbs-up codepoint and each of
its five skin-tone-modified forms, and no other single emoji (a codepoint
other than U+1F44D, alone or with a skin-tone modifier) tests positive. -/
theorem thumbsUp_variants (c m : Nat) :
    thumbsUpTest [thumbCp] = true
    ∧ (m ∈ skinTones → thumbsUpTest [thumbCp, m] = true)
    ∧ (c ≠ thumbCp → thumbsUpTest [c] = false)
    ∧ (c ≠ thumbCp → m ∈ skinTones → thumbsUpTest [c, m] = false) := by
  have hskin : ∀ x ∈ skinTones, x ≠ thumbCp := by decide
  refine ⟨rfl, fun _ => rfl, ?_, ?_⟩
  · intro hc
    simp [thumbsUpTest, thumbsMatchHere, hc]
  · intro hc hm
    have hmne := hskin m hm
    simp [thumbsUpTest, thumbsMatchHere, hc, hmne]

/-- C5 witness: the base glyph, a toned variant, and two non-thumbs emoji. -/
theorem thumbsUp_variants_witness :
    thumbsUpTest [thumbCp] = true
    ∧ thumbsUpTest [thumbCp, 0x1F3FD] = true
    ∧ thumbsUpTest [0x1F600] = false
    ∧ thumbsUpTest [0x1F600, 0x1F3FD] = false := by
  have h := thumbsUp_variants 0x1F600 0x1F3FD
  exact ⟨h.1, (thumbsUp_variants 0 0x1F3FD).2.1 (by decide),
    h.2.2.1 (by decide), h.2.2.2 (by decide) (by decide)⟩

/-! ## Claim C3: chunking -/

lemma renderGroup_append (g1 g2 : List String) :
    renderGroup (g1 ++ g2) = renderGroup g1 ++ renderGroup g2 := by
  induction g1 with
  | nil =>
    rw [List.nil_append]
    exact (String.empty_append _).symm
  | cons l rest ih =>
    rw [List.cons_append, renderGroup, renderGroup, ih, String.append_assoc,
      String.append_assoc, String.append_assoc]

lemma renderGroup_ne_empty (g : List String) (h : g ≠ []) : renderGroup g ≠ "" := by
  match g with
  | l :: rest =>
    intro hcon
    have hlen := congrArg String.length hcon
    rw [renderGroup, String.length_append, String.length_append] at hlen
    have h1 : "\n".length = 1 := rfl
    have h0 : ("" : String).length = 0 := rfl
    omega

lemma renderGroup_singleton (l : String) : renderGroup [l] = l ++ "\n" := by
  rw [renderGroup, renderGroup, String.append_empty]

/-- The chunking loop, started with accumulated group `g`, produces the
rendering of a partition of `g ++ rest` into non-empty consecutive groups. -/
lemma chunkGo_partition (maxLen : Nat) (rest : List String) : ∀ g : List String,
    ∃ parts : List (List String), parts.flatten = g ++ rest ∧ (∀ p ∈ parts, p ≠ []) ∧
      chunkGo maxLen (renderGroup g) rest = parts.map renderGroup := by
  induction rest with
  | nil =>
    intro g
    by_cases hg : g = []
    · exact ⟨[], by simp [hg], by simp, by simp [hg, chunkGo, renderGroup]⟩
    · refine ⟨[g], by simp, by simp [hg], ?_⟩
      simp [chunkGo, renderGroup_ne_empty g hg]
  | cons line rest ih =>
    intro g
    have hunf : chunkGo maxLen (renderGroup g) (line :: rest) =
        (if (renderGroup g ++ (line ++ "\n")).length > maxLen then
          (if renderGroup g ≠ "" then [renderGroup g] else []) ++
            chunkGo maxLen (line ++ "\n") rest
        else chunkGo maxLen (renderGroup g ++ (line ++ "\n")) rest) := rfl
    by_cases hover : (renderGroup g ++ (line ++ "\n")).length > maxLen
    · obtain ⟨parts', hjoin, hne, heq⟩ := ih [line]
      rw [renderGroup_singleton] at heq
      refine ⟨(if g = [] then [] else [g]) ++ parts', ?_, ?_, ?_⟩
      · by_cases hg : g = [] <;> simp [hg, hjoin]
      · intro p hp
        rcases List.mem_append.mp hp with hp1 | hp2
        · by_cases hg : g = [] <;> simp [hg] at hp1
          simp [hp1, hg]
        · exact hne p hp2
      · rw [hunf, if_pos hover, heq, List.map_append]
        by_cases hg : g = []
        · simp [hg, renderGroup]
        · simp [hg, renderGroup_ne_empty g hg]
    · obtain ⟨parts', hjoin, hne, heq⟩ := ih (g ++ [line])
      rw [renderGroup_append, renderGroup_singleton] at heq
      refine ⟨parts', by simpa using hjoin, hne, ?_⟩
      rw [hunf, if_neg hover, heq]

/-- Every chunk the loop emits stays within the bound, provided the
accumulator does and every remaining line (with its separator) fits. -/
lemma chunkGo_bound (maxLen : Nat) (rest : List String) : ∀ cur : String,
    cur.length ≤ maxLen → (∀ l ∈ rest, l.length + 1 ≤ maxLen) →
    ∀ c ∈ chunkGo maxLen cur rest, c.length ≤ maxLen := by
  induction rest with
  | nil =>
    intro cur hcur _ c hc
    simp only [chunkGo] at hc
    split at hc
    · simp at hc
      exact hc ▸ hcur
    · simp at hc
  | cons line rest ih =>
    intro cur hcur hlines c hc
    have hadd : (line ++ "\n").length ≤ maxLen := by
      have := hlines line (by simp)
      simpa [String.length_append] using this
    simp only [chunkGo] at hc
    split at hc
    · rcases List.mem_append.mp hc with hc1 | hc2
      · split at hc1 <;> simp at hc1
        exact hc1 ▸ hcur
      · exact ih (line ++ "\n") hadd (fun l hl => hlines l (by simp [hl])) c hc2
    · rename_i hover
      have hle : (cur ++ (line ++ "\n")).length ≤ maxLen := by omega
      exact ih (cur ++ (line ++ "\n")) hle (fun l hl => hlines l (by simp [hl])) c hc

lemma string_foldl_append (qs : List String) : ∀ init : String,
    qs.foldl (fun r s => r ++ s) init = init ++ qs.foldl (fun r s => r ++ s) "" := by
  induction qs with
  | nil => intro init; simp [String.append_empty]
  | cons q qs ih =>
    intro init
    simp only [List.foldl_cons]
    rw [ih (init ++ q), ih ("" ++ q), String.empty_append, String.append_assoc]

lemma string_join_cons (s : String) (rest : List String) :
    String.join (s :: rest) = s ++ String.join rest := by
  simp only [String.join, List.foldl_cons]
  rw [String.empty_append, string_foldl_append rest s]

lemma join_map_renderGroup (parts : List (List String)) :
    String.join (parts.map renderGroup) = renderGroup parts.flatten := by
  induction parts with
  | nil => rfl
  | cons p rest ih =>
    rw [List.map_cons, string_join_cons, ih, List.flatten_cons, renderGroup_append]

lemma renderGroup_eq_join_map (lines : List String) :
    renderGroup lines = String.join (lines.map (fun l => l ++ "\n")) := by
  induction lines with
  | nil => rfl
  | cons l rest ih =>
    rw [List.map_cons, string_join_cons, renderGroup, ih]

/-- C3 counterexample: with bound `1`, the single line `"aa"` yields the
chunk `"aa\n"` of length `3 > 1` — a line longer than the bound produces an
oversized chunk. -/
theorem chunk_bound_violated_cex :
    chunkMessages ["aa"] 1 = ["aa\n"] ∧ ¬ ("aa\n".length ≤ 1) := by
  constructor
  · rfl
  · decide

/-- C3 (amended): the chunks always partition the line sequence into
non-empty consecutive groups, each line kept whole and followed by its
newline, so reassembly reproduces the original sequence; and no chunk
exceeds the bound **provided every line together with its separator fits
within the bound**. -/
theorem chunkMessages_partition_bound (lines : List String) (maxLen : Nat) :
    (∃ parts : List (List String), parts.flatten = lines ∧ (∀ p ∈ parts, p ≠ []) ∧
      chunkMessages lines maxLen = parts.map renderGroup)
    ∧ String.join (chunkMessages lines maxLen) =
        String.join (lines.map (fun l => l ++ "\n"))
    ∧ ((∀ l ∈ lines, l.length + 1 ≤ maxLen) →
        ∀ c ∈ chunkMessages lines maxLen, c.length ≤ maxLen) := by
  obtain ⟨parts, hjoin, hne, heq⟩ := chunkGo_partition maxLen lines []
  simp only [List.nil_append] at hjoin
  have hchunk : chunkMessages lines maxLen = parts.map renderGroup := by
    simpa [chunkMessages, renderGroup] using heq
  refine ⟨⟨parts, hjoin, hne, hchunk⟩, ?_, ?_⟩
  · rw [hchunk, join_map_renderGroup, hjoin, renderGroup_eq_join_map]
  · intro hfit c hc
    exact chunkGo_bound maxLen lines "" (by simp) hfit c hc

/-- C3 witness: two short lines under bound 6 form chunks within the bound. -/
theorem chunkMessages_partition_bound_witness :
    (∀ l ∈ ["ab", "cd"], l.length + 1 ≤ 6)
    ∧ ∀ c ∈ chunkMessages ["ab", "cd"] 6, c.length ≤ 6 := by
  refine ⟨by decide, ?_⟩
  exact (chunkMessages_partition_bound ["ab", "cd"] 6).2.2 (by decide)

/-! ## Claims C1, C2, C4, C6: the ledger apply step -/

lemma kvGet_kvSet_self (st : Store) (k : String) (v : StoredVal) :
    kvGet (kvSet st k v) k = some v := by
  induction st with
  | nil => simp [kvSet, kvGet]
  | cons kv rest ih =>
    obtain ⟨k', v'⟩ := kv
    by_cases hk : k' = k
    · simp [kvSet, kvGet, hk]
    · simp [kvSet, kvGet, hk, ih]

lemma closeTask_of_done (t : Task) (now : Int) (hdone : t.done = true) :
    closeTask t now = { t with doneAt := some now } := by
  cases t
  simp_all [closeTask]

lemma applyClose_good (st : Store) (k : String) (now : Int) (t : Task)
    (hget : kvGet st k = some (.good t)) :
    applyClose st k now = kvSet st k (.good (closeTask t now)) := by
  unfold applyClose
  rw [hget]

lemma applyClose_none (st : Store) (k : String) (now : Int)
    (hget : kvGet st k = none) : applyClose st k now = st := by
  unfold applyClose
  rw [hget]

/-- C1 counterexample: the ledger holds the already-closed record
`sampleDoneTask` (`doneAt = 5`); a further thumbs-up reaction-close at time
`10` is **not** a no-op — it rewrites the record with `doneAt = 10`. -/
theorem reclose_overwrites_doneAt_cex :
    applyUpdate "7" 10 sampleDoneStore sampleReactionClose ≠ sampleDoneStore
    ∧ kvGet (applyUpdate "7" 10 sampleDoneStore sampleReactionClose) (taskKey 7 1) =
        some (.good { sampleDoneTask with doneAt := some 10 }) := by
  decide

/-- C1 (amended): applying a close action to an identity whose stored record
is already done rewrites the record with `done` still `true` and every other
field unchanged **except `doneAt`, which is overwritten with the close
time**; the write is a genuine no-op only when the close time equals the
stored `doneAt`. -/
theorem reclose_monotonic_overwrites_doneAt (admin : String) (now : Int) (st : Store)
    (u : UpdateRec) (k : String) (t : Task) (hcl : IsCloseAction admin u k)
    (hget : kvGet st k = some (.good t)) (hdone : t.done = true) :
    applyUpdate admin now st u = kvSet st k (.good { t with doneAt := some now })
    ∧ (t.doneAt = some now → applyUpdate admin now st u = st) := by
  have hb := applyUpdate_close admin now st u k hcl
  have hclose := closeTask_of_done t now hdone
  constructor
  · rw [hb, applyClose_good st k now t hget, hclose]
  · intro hda
    rw [hb, applyClose_good st k now t hget, hclose]
    have ht : ({ t with doneAt := some now } : Task) = t := by
      cases t
      simp_all
    rw [ht]
    exact kvSet_of_get_eq st k _ hget

/-- C1 witness: the amended statement evaluated on the sample ledger. -/
theorem reclose_monotonic_witness :
    applyUpdate "7" 10 sampleDoneStore sampleReactionClose =
      kvSet sampleDoneStore (taskKey 7 1) (.good { sampleDoneTask with doneAt := some 10 }) := by
  refine (reclose_monotonic_overwrites_doneAt "7" 10 sampleDoneStore sampleReactionClose
    (taskKey 7 1) sampleDoneTask ?_ (by decide) (by decide)).1
  exact Or.inl ⟨_, _, rfl, rfl, rfl, by decide, by decide, by decide, by decide⟩

/-- C2 counterexample: create "hello" at identity `7:1`, close it by
reaction, then apply the identical create again — the second create is not a
no-op against the present (closed) record: it resets it to a fresh open
record. -/
theorem second_create_overwrites_cex :
    applyUpdate "7" 10
        (applyUpdate "7" 10 (applyUpdate "7" 10 [] sampleCreateUpdate) sampleReactionClose)
        sampleCreateUpdate ≠
      applyUpdate "7" 10 (applyUpdate "7" 10 [] sampleCreateUpdate) sampleReactionClose
    ∧ kvGet (applyUpdate "7" 10
        (applyUpdate "7" 10 (applyUpdate "7" 10 [] sampleCreateUpdate) sampleReactionClose)
        sampleCreateUpdate) (taskKey 7 1) = some (.good (mkTask 7 1 (some 50) "hello")) := by
  decide

/-- C2 (amended): a create-task update is applied as a blind overwrite of its
identity's key with a fresh `done = false` record, with no prior lookup;
consequently two identical creates applied back-to-back equal a single one,
but a create applied after the record was modified (e.g. closed) replaces the
modified record. -/
theorem create_blind_overwrite (admin : String) (now : Int) (st : Store) (u : UpdateRec)
    (k : String) (T : Task) (h : IsCreateAction admin u k T) :
    applyUpdate admin now st u = kvSet st k (.good T)
    ∧ applyUpdate admin now (applyUpdate admin now st u) u = applyUpdate admin now st u := by
  have hb := applyUpdate_create admin now st u k T h
  have hb2 := applyUpdate_create admin now (kvSet st k (.good T)) u k T h
  refine ⟨hb, ?_⟩
  rw [hb, hb2]
  exact kvSet_of_get_eq _ k _ (kvGet_kvSet_self st k _)

/-- C2 witness: the amended statement evaluated on the sample create. -/
theorem create_blind_overwrite_witness :
    applyUpdate "7" 10 sampleDoneStore sampleCreateUpdate =
      kvSet sampleDoneStore (taskKey 7 1) (.good (mkTask 7 1 (some 50) "hello")) := by
  refine (create_blind_overwrite "7" 10 sampleDoneStore sampleCreateUpdate
    (taskKey 7 1) (mkTask 7 1 (some 50) "hello") ?_).1
  exact ⟨rfl, sampleCreateMsg, ⟨7, "private"⟩, rfl, rfl, rfl, by decide, rfl, by decide,
    by decide, by decide, by decide⟩

/-- C4: an owner message in the private watch chat that is not a reply, has
non-empty text and is not a thumbs-up is written at key
`task:<chat id>:<message id>` as a fresh record with `done = false`,
`createdAt` the message's send time in milliseconds, and `text` the
truncated, whitespace-normalised snippet of the message text. -/
theorem create_task_fields (admin : String) (now : Int) (st : Store) (u : UpdateRec)
    (m : MsgEv) (chat : Chat) (hmr : u.message_reaction = none) (hm : u.message = some m)
    (hchat : m.chat = some chat) (htype : chat.type = "private")
    (hfrom : optIdStr m.fromId = admin) (hrep : m.reply_to = none)
    (htext : msgText m ≠ "") (hthumb : thumbsUpTestStr (msgText m) = false) :
    applyUpdate admin now st u =
      kvSet st (taskKey chat.id m.message_id)
        (.good (mkTask chat.id m.message_id m.date (msgText m)))
    ∧ (mkTask chat.id m.message_id m.date (msgText m)).done = false
    ∧ (mkTask chat.id m.message_id m.date (msgText m)).createdAt = (m.date.getD 0) * 1000
    ∧ (mkTask chat.id m.message_id m.date (msgText m)).text = snippet (msgText m) 400 := by
  refine ⟨?_, rfl, rfl, rfl⟩
  exact applyUpdate_create admin now st u _ _
    ⟨hmr, m, chat, hm, hchat, htype, hfrom, hrep, htext, hthumb, rfl, rfl⟩

/-- C4 witness: the create applied to the empty ledger. -/
theorem create_task_fields_witness :
    applyUpdate "7" 10 [] sampleCreateUpdate =
      kvSet [] (taskKey 7 1) (.good (mkTask 7 1 (some 50) "hello")) := by
  exact (create_task_fields "7" 10 [] sampleCreateUpdate sampleCreateMsg ⟨7, "private"⟩
    rfl rfl rfl rfl (by decide) rfl (by decide) (by decide)).1

/-- C6: a close action (reaction-close or reply-close) whose target key is
absent from the ledger leaves the ledger entirely unchanged (and, being a
total function, completes without error). -/
theorem close_absent_noop (admin : String) (now : Int) (st : Store) (u : UpdateRec)
    (k : String) (hcl : IsCloseAction admin u k) (habs : kvGet st k = none) :
    applyUpdate admin now st u = st := by
  rw [applyUpdate_close admin now st u k hcl]
  unfold applyClose
  rw [habs]

/-- C6 witness: both close kinds applied to the empty ledger. -/
theorem close_absent_noop_witness :
    applyUpdate "7" 10 [] sampleReactionClose = []
    ∧ applyUpdate "7" 10 [] sampleReplyClose = [] := by
  constructor
  · refine close_absent_noop "7" 10 [] sampleReactionClose (taskKey 7 1) ?_ rfl
    exact Or.inl ⟨_, _, rfl, rfl, rfl, by decide, by decide, by decide, by decide⟩
  · refine close_absent_noop "7" 10 [] sampleReplyClose (taskKey 7 1) ?_ rfl
    exact Or.inr ⟨rfl, _, ⟨7, "private"⟩, 1, rfl, rfl, rfl, by decide, by decide, by decide⟩

/-! ## Claim C7: the report -/

lemma kvGet_cons_ne (k0 : String) (v0 : StoredVal) (rest : Store) (k : String)
    (h : k0 ≠ k) : kvGet ((k0, v0) :: rest) k = kvGet rest k := by
  simp [kvGet, h]

/-- Cons-level equation for `openRecords`. -/
lemma openRecords_cons (k0 : String) (v0 : StoredVal) (rest : Store) (admin : String) :
    openRecords ((k0, v0) :: rest) admin =
      (match v0 with
       | .good t =>
         if strStartsWith k0 ("task:" ++ admin ++ ":") ∧ t.done = false then [t] else []
       | .corrupt => []) ++ openRecords rest admin := by
  rw [openRecords, List.filterMap_cons]
  cases v0 with
  | corrupt => simp [openRecords]
  | good t =>
    by_cases hc : strStartsWith k0 ("task:" ++ admin ++ ":") = true ∧ t.done = false
    · simp [hc, openRecords]
    · simp [hc, openRecords]

/-- Cons-level equation for `fullScanTasks`, valid when the head key does
not reappear in the tail. -/
lemma fullScanTasks_cons (k0 : String) (v0 : StoredVal) (rest : Store) (admin : String)
    (hk0 : k0 ∉ rest.map Prod.fst) :
    fullScanTasks ((k0, v0) :: rest) admin =
      (match v0 with
       | .good t =>
         if strStartsWith k0 ("task:" ++ admin ++ ":") ∧ t.done = false then [t] else []
       | .corrupt => []) ++ fullScanTasks rest admin := by
  have hself : kvGet ((k0, v0) :: rest) k0 = some v0 := by simp [kvGet]
  have hcongr : (((rest.map Prod.fst).filter
        (fun k => strStartsWith k ("task:" ++ admin ++ ":"))).filterMap
      (fun k => match kvGet ((k0, v0) :: rest) k with
        | some (.good t) => if t.done then none else some t
        | _ => none)) =
      (((rest.map Prod.fst).filter
        (fun k => strStartsWith k ("task:" ++ admin ++ ":"))).filterMap
      (fun k => match kvGet rest k with
        | some (.good t) => if t.done then none else some t
        | _ => none)) := by
    refine List.filterMap_congr ?_
    intro k hk
    have hkmem : k ∈ rest.map Prod.fst := List.mem_of_mem_filter hk
    have hne : k0 ≠ k := fun hcon => hk0 (hcon ▸ hkmem)
    rw [kvGet_cons_ne k0 v0 rest k hne]
  simp only [fullScanTasks, matchingKeys, List.map_cons, List.filter_cons]
  by_cases hp : strStartsWith k0 ("task:" ++ admin ++ ":") = true
  · rw [if_pos hp, List.filterMap_cons, hself, hcongr]
    cases v0 with
    | corrupt => simp
    | good t =>
      cases hd : t.done with
      | true => simp [hd]
      | false => simp [hd, hp]
  · rw [if_neg hp, hcongr]
    cases v0 with
    | corrupt => simp
    | good t => simp [hp]

/-- On a ledger with unique keys, the full-scan task list is exactly the
list of readable, prefix-matching, not-done records, in store order. -/
lemma fullScanTasks_eq_openRecords (admin : String) : ∀ st : Store,
    (st.map Prod.fst).Nodup → fullScanTasks st admin = openRecords st admin := by
  intro st
  induction st with
  | nil => intro _; rfl
  | cons kv rest ih =>
    obtain ⟨k0, v0⟩ := kv
    intro hnd
    rw [List.map_cons, List.nodup_cons] at hnd
    obtain ⟨hk0, hrest⟩ := hnd
    rw [fullScanTasks_cons k0 v0 rest admin hk0, openRecords_cons, ih hrest]

/-- When at most 5000 keys are served in total, the key-collection loop is
not truncated by the cap: it returns all pages' keys in order. -/
lemma scanCollect_eq_flatten : ∀ (pages : List (List String)) (acc : List String),
    (acc ++ pages.flatten).length ≤ 5000 → scanCollect pages acc = acc ++ pages.flatten := by
  intro pages
  induction pages with
  | nil => intro acc _; simp [scanCollect]
  | cons page rest ih =>
    intro acc hlen
    rw [List.flatten_cons] at hlen
    by_cases hc : (acc ++ page).length < 5000
    · rw [List.flatten_cons, ← List.append_assoc]
      simp only [scanCollect, if_pos hc]
      exact ih (acc ++ page) (by simpa [List.append_assoc] using hlen)
    · have h2 : rest.flatten = [] := by
        have h1 := hlen
        simp only [List.length_append] at h1 hc
        have : rest.flatten.length = 0 := by omega
        exact List.eq_nil_of_length_eq_zero this
      simp only [scanCollect, if_neg hc]
      rw [List.flatten_cons, h2, List.append_nil]

/-- Under the collaborator's contract — the served pages enumerate exactly
the keys matching the pattern — and with at most 5000 matching keys (no
cap truncation), the report reads exactly the full scan's task list. -/
lemma preTasks_complete (st : Store) (admin : String) (pages : List (List String))
    (hcomplete : pages.flatten = matchingKeys st admin)
    (hcap : (matchingKeys st admin).length ≤ 5000) :
    preTasks st pages = fullScanTasks st admin := by
  rw [preTasks, scanCollect_eq_flatten pages [] (by simpa [hcomplete] using hcap),
    List.nil_append, hcomplete, fullScanTasks]

lemma byCreatedAt_trans : ∀ a b c : Task,
    byCreatedAt a b = true → byCreatedAt b c = true → byCreatedAt a c = true := by
  intro a b c hab hbc
  simp only [byCreatedAt, decide_eq_true_eq] at *
  omega

lemma byCreatedAt_total : ∀ a b : Task, (byCreatedAt a b || byCreatedAt b a) = true := by
  intro a b
  simp only [byCreatedAt, Bool.or_eq_true, decide_eq_true_eq]
  omega

/-- C7: when the scan serves a complete enumeration of the keys matching
`task:<admin>:*` and at most 5000 keys match (so the 5000-key safety cap
does not truncate the collection), the report's task list on a unique-key
ledger is a permutation of exactly the readable records under the watch
prefix whose `done` field is not true, and it is sorted ascending by
`createdAt`; moreover under *any* scan behaviour (truncated or partial
enumerations included) every listed task has `done = false`, so every
`done = true` record is excluded, whatever sequence of creates and closes
produced the ledger. -/
theorem report_open_sorted (st : Store) (admin : String) (pages : List (List String))
    (hnd : (st.map Prod.fst).Nodup)
    (hcomplete : pages.flatten = matchingKeys st admin)
    (hcap : (matchingKeys st admin).length ≤ 5000) :
    (reportTasks st admin pages).Perm (openRecords st admin)
    ∧ List.Pairwise (fun a b => a.createdAt ≤ b.createdAt) (reportTasks st admin pages)
    ∧ ∀ (pg : List (List String)), ∀ t ∈ reportTasks st admin pg, t.done = false := by
  have hpre : preTasks st pages = openRecords st admin := by
    rw [preTasks_complete st admin pages hcomplete hcap]
    exact fullScanTasks_eq_openRecords admin st hnd
  have hrt : reportTasks st admin pages = (preTasks st pages).mergeSort byCreatedAt := rfl
  have hperm : (reportTasks st admin pages).Perm (preTasks st pages) := by
    rw [hrt]; exact List.mergeSort_perm _ _
  refine ⟨hpre ▸ hperm, ?_, ?_⟩
  · have hs := List.sorted_mergeSort byCreatedAt_trans byCreatedAt_total (preTasks st pages)
    rw [hrt]
    exact hs.imp (fun h => by simpa [byCreatedAt, decide_eq_true_eq] using h)
  · intro pg t ht
    have hperm2 : (reportTasks st admin pg).Perm (preTasks st pg) :=
      List.mergeSort_perm _ _
    have hmem : t ∈ preTasks st pg := hperm2.mem_iff.mp ht
    rw [preTasks] at hmem
    obtain ⟨k, _, hfk⟩ := List.mem_filterMap.mp hmem
    revert hfk
    cases kvGet st k with
    | none => intro h; cases h
    | some v =>
      cases v with
      | corrupt => intro h; cases h
      | good t' =>
        cases hd : t'.done with
        | true => intro h; simp [hd] at h
        | false =>
          intro h
          simp only [hd, Bool.false_eq_true, if_false, Option.some.injEq] at h
          exact h ▸ hd

/-- C7 witness: a two-page scan trace completely enumerating the sample
three-record ledger's keys; the report lists the two open tasks and
excludes the closed one. -/
theorem report_open_sorted_witness :
    ((sampleReportStore.map Prod.fst).Nodup)
    ∧ sampleScanPages.flatten = matchingKeys sampleReportStore "7"
    ∧ (matchingKeys sampleReportStore "7").length ≤ 5000
    ∧ (reportTasks sampleReportStore "7" sampleScanPages).Perm
        (openRecords sampleReportStore "7")
    ∧ ∀ t ∈ reportTasks sampleReportStore "7" sampleScanPages, t.done = false := by
  have h := report_open_sorted sampleReportStore "7" sampleScanPages (by decide)
    (by decide) (by decide)
  exact ⟨by decide, by decide, by decide, h.1, h.2.2 sampleScanPages⟩

/-! ## Claim C8: the update drainer -/

/-- Invariant of the drain loop: on success the result extends the
accumulator by the flattened batch trace; the loop stopped on the cap or on
an empty batch fetched at the final cursor; and the final cursor is either
untouched (first batch empty) or one past the last drained update. -/
lemma fetchLoop_ok_spec (fetch : Option Int → FeedResp) (offset : Option Int)
    (all : List UpdateRec) :
    ∀ updates next, fetchLoop fetch offset all = .ok (updates, next) →
      updates = all ++ (fetchTrace fetch offset all).flatten
      ∧ (updates.length > 2000 ∨ ((fetch next).ok = true ∧ (fetch next).result = []))
      ∧ ((updates = all ∧ next = offset) ∨
          ∃ lu, updates.getLast? = some lu ∧ next = some (lu.update_id + 1)) := by
  induction offset, all using fetchLoop.induct fetch with
  | case1 offset all resp hok hres =>
    intro updates next h
    have hok' : (fetch offset).ok = true := hok
    have hres' : (fetch offset).result = [] := hres
    unfold fetchLoop at h
    simp only [hok', if_true, hres', Except.ok.injEq, Prod.mk.injEq] at h
    obtain ⟨hu, hn⟩ := h
    refine ⟨?_, ?_, Or.inl ⟨hu.symm, hn.symm⟩⟩
    · rw [← hu]
      unfold fetchTrace
      simp [hok', hres']
    · right
      rw [← hn]
      exact ⟨hok', hres'⟩
  | case2 offset all resp hok u us hres hcap =>
    intro updates next h
    have hok' : (fetch offset).ok = true := hok
    have hres' : (fetch offset).result = u :: us := hres
    unfold fetchLoop at h
    simp only [hok', if_true, hres', dif_pos hcap, Except.ok.injEq, Prod.mk.injEq] at h
    obtain ⟨hu, hn⟩ := h
    refine ⟨?_, Or.inl (hu ▸ hcap), Or.inr ?_⟩
    · have htr2 : fetchTrace fetch offset all = [u :: us] := by
        rw [fetchTrace.eq_def]
        simp only [hok', if_true, hres']
        rw [dif_pos hcap]
      rw [← hu, htr2, List.flatten_cons, List.flatten_nil, List.append_nil]
    · refine ⟨(u :: us).getLast (by simp), ?_, hn.symm⟩
      rw [← hu, List.getLast?_append, List.getLast?_eq_getLast (u :: us) (by simp)]
      rfl
  | case3 offset all resp hok u us hres offset' hncap ih =>
    intro updates next h
    have hok' : (fetch offset).ok = true := hok
    have hres' : (fetch offset).result = u :: us := hres
    unfold fetchLoop at h
    simp only [hok', if_true, hres', dif_neg hncap] at h
    obtain ⟨hjoin, hstop, hcursor⟩ := ih updates next h
    have htr : fetchTrace fetch offset all =
        (u :: us) :: fetchTrace fetch
          (some (((u :: us).getLast (by simp)).update_id + 1)) (all ++ u :: us) := by
      conv_lhs => rw [fetchTrace.eq_def]
      simp only [hok', if_true, hres']
      rw [dif_neg hncap]
    refine ⟨?_, hstop, ?_⟩
    · rw [htr, List.flatten_cons, hjoin, List.append_assoc]
    · rcases hcursor with ⟨hu, hn⟩ | hr
      · refine Or.inr ⟨(u :: us).getLast (by simp), ?_, by rw [hn]⟩
        rw [hu, List.getLast?_append, List.getLast?_eq_getLast (u :: us) (by simp)]
        rfl
      · exact Or.inr hr
  | case4 offset all resp hnok =>
    intro updates next h
    have hnok' : ¬ (fetch offset).ok = true := hnok
    unfold fetchLoop at h
    simp only [if_neg hnok'] at h
    cases h

/-- C8: for a drain that succeeds, the returned updates are the
concatenation of the fetched batches in feed order; the loop stopped exactly
because the cumulative count exceeded the 2000 safety cap or because the
batch fetched at the final cursor was empty; an empty drain leaves the
cursor at the start; and when the drained updates carry strictly increasing
sequence numbers the final cursor is the maximum sequence number plus one. -/
theorem drain_concat_cursor_stop (fetch : Option Int → FeedResp) (start : Option Int)
    (updates : List UpdateRec) (next : Option Int)
    (hok : fetchAllUpdates fetch start = .ok (updates, next))
    (hinc : List.Pairwise (fun a b => a.update_id < b.update_id) updates) :
    updates = (fetchTrace fetch start []).flatten
    ∧ (updates.length > 2000 ∨ ((fetch next).ok = true ∧ (fetch next).result = []))
    ∧ (updates = [] → next = start)
    ∧ (updates ≠ [] → ∃ m : Int, m ∈ updates.map (·.update_id)
        ∧ (∀ i ∈ updates.map (·.update_id), i ≤ m) ∧ next = some (m + 1)) := by
  obtain ⟨hjoin, hstop, hcursor⟩ := fetchLoop_ok_spec fetch start [] updates next hok
  rw [List.nil_append] at hjoin
  refine ⟨hjoin, hstop, ?_, ?_⟩
  · intro hemp
    rcases hcursor with ⟨_, hn⟩ | ⟨lu, hlast, _⟩
    · exact hn
    · rw [hemp] at hlast
      cases hlast
  · intro hne
    rcases hcursor with ⟨hu, _⟩ | ⟨lu, hlast, hn⟩
    · exact absurd hu hne
    · have hlu : lu = updates.getLast hne := by
        rw [List.getLast?_eq_getLast updates hne] at hlast
        exact (Option.some.inj hlast).symm
      have hdecomp := List.dropLast_append_getLast hne
      refine ⟨lu.update_id, ?_, ?_, hn⟩
      · exact List.mem_map_of_mem _ (hlu ▸ List.getLast_mem hne)
      · intro i hi
        obtain ⟨u', hu', hui⟩ := List.mem_map.mp hi
        rw [← hdecomp] at hinc
        rw [← hdecomp] at hu'
        rcases List.mem_append.mp hu' with hd | hl
        · have := (List.pairwise_append.mp hinc).2.2 u' hd (updates.getLast hne) (by simp)
          rw [← hui, hlu]
          exact le_of_lt this
        · rw [← hui, hlu]
          simp only [List.mem_singleton] at hl
          rw [hl]


/-- A minimal update carrying only its sequence number. -/
def sampleUpd (i : Int) : UpdateRec := ⟨i, none, none, none, none, none⟩

/-- A feed that yields one two-update batch and then runs dry. -/
def sampleFetch (o : Option Int) : FeedResp :=
  match o with
  | none => ⟨true, [sampleUpd 1, sampleUpd 2]⟩
  | some _ => ⟨true, []⟩

/-- C8 witness: the sample feed drains to its single batch with cursor 3. -/
theorem drain_concat_cursor_stop_witness :
    fetchAllUpdates sampleFetch none = .ok ([sampleUpd 1, sampleUpd 2], some 3)
    ∧ [sampleUpd 1, sampleUpd 2] = (fetchTrace sampleFetch none []).flatten
    ∧ ∃ m : Int, m ∈ [sampleUpd 1, sampleUpd 2].map (·.update_id)
        ∧ (∀ i ∈ [sampleUpd 1, sampleUpd 2].map (·.update_id), i ≤ m)
        ∧ (some 3 : Option Int) = some (m + 1) := by
  have hok : fetchAllUpdates sampleFetch none = .ok ([sampleUpd 1, sampleUpd 2], some 3) := by
    unfold fetchAllUpdates
    unfold fetchLoop
    simp [sampleFetch, sampleUpd]
    unfold fetchLoop
    simp [sampleFetch]
  have h := drain_concat_cursor_stop sampleFetch none [sampleUpd 1, sampleUpd 2] (some 3)
    hok (by decide)
  exact ⟨hok, h.1, by simpa using h.2.2.2 (by simp)⟩

/-! ## Claim C9: the HTTP entry point -/

/-- C9: the entry point answers 401 when a (non-empty) shared secret is
configured and the request's `key` parameter differs from it; 500 when the
bot token or admin chat id is unset (or empty); and, when authentication
passes, configuration is present, the drain succeeds and the key-value store
is configured, 200 with `ok = true`, `checked` the number of drained updates
and `reported` the number of open tasks listed. -/
theorem http_entry_responses (env : Env) (reqKey : Option String)
    (fetch : Option Int → FeedResp) (st : Store) (now : Int) (meta : Option ChatMeta)
    (scanPages : List (List String)) :
    (jsTruthyStrOpt env.cronSecret = true → reqKey.getD "" ≠ env.cronSecret.getD "" →
      (handler env reqKey fetch st now meta scanPages).1 = .unauthorized)
    ∧ ((jsTruthyStrOpt env.cronSecret = true → reqKey.getD "" = env.cronSecret.getD "") →
        ¬ (jsTruthyStrOpt env.tgToken = true ∧ jsTruthyStrOpt env.adminChatId = true) →
        (handler env reqKey fetch st now meta scanPages).1 = .missingEnv)
    ∧ (∀ updates next,
        (jsTruthyStrOpt env.cronSecret = true → reqKey.getD "" = env.cronSecret.getD "") →
        jsTruthyStrOpt env.tgToken = true → jsTruthyStrOpt env.adminChatId = true →
        fetchAllUpdates fetch none = .ok (updates, next) →
        jsTruthyStrOpt env.upstashUrl = true → jsTruthyStrOpt env.upstashToken = true →
        (handler env reqKey fetch st now meta scanPages).1 =
          .success updates.length
            (reportTasks (runUpdates (env.adminChatId.getD "") now st updates)
              (env.adminChatId.getD "") scanPages).length) := by
  refine ⟨?_, ?_, ?_⟩
  · intro h1 h2
    simp [handler, h1, h2]
  · intro himp hmenv
    have hcond : ¬ (jsTruthyStrOpt env.cronSecret = true ∧
        reqKey.getD "" ≠ env.cronSecret.getD "") := by
      rintro ⟨ha, hb⟩
      exact hb (himp ha)
    rw [handler, if_neg hcond, if_pos hmenv]
  · intro updates next himp htok hadmin hfetch hurl hutok
    have hcond : ¬ (jsTruthyStrOpt env.cronSecret = true ∧
        reqKey.getD "" ≠ env.cronSecret.getD "") := by
      rintro ⟨ha, hb⟩
      exact hb (himp ha)
    rw [handler, if_neg hcond, if_neg (fun hc => hc ⟨htok, hadmin⟩)]
    simp only [hfetch, hurl, hutok, Bool.and_self, if_true, reportLines, List.length_map]

/-- The environment used by the C9 witness. -/
def sampleEnv : Env := ⟨some "t", some "7", some "s", some "u", some "k"⟩

/-- C9 witness: a mismatched key gives 401; missing token gives 500; a
successful run over the sample feed and ledger gives 200 with `checked = 2`
and `reported = 2`. -/
theorem http_entry_responses_witness :
    (handler sampleEnv (some "x") sampleFetch sampleReportStore 10 none
        sampleScanPages).1 = .unauthorized
    ∧ (handler ⟨none, some "7", none, none, none⟩ none sampleFetch sampleReportStore 10
        none sampleScanPages).1 = .missingEnv
    ∧ (handler sampleEnv (some "s") sampleFetch sampleReportStore 10 none
        sampleScanPages).1 = .success 2 2 := by
  have hfetch : fetchAllUpdates sampleFetch none =
      .ok ([sampleUpd 1, sampleUpd 2], some 3) := by
    unfold fetchAllUpdates
    unfold fetchLoop
    simp [sampleFetch, sampleUpd]
    unfold fetchLoop
    simp [sampleFetch]
  refine ⟨?_, ?_, ?_⟩
  · exact (http_entry_responses sampleEnv (some "x") sampleFetch sampleReportStore 10
      none sampleScanPages).1 (by decide) (by decide)
  · exact (http_entry_responses ⟨none, some "7", none, none, none⟩ none sampleFetch
      sampleReportStore 10 none sampleScanPages).2.1 (by intro h; cases h)
      (by rintro ⟨h, -⟩; cases h)
  · have h := (http_entry_responses sampleEnv (some "s") sampleFetch sampleReportStore 10
      none sampleScanPages).2.2 [sampleUpd 1, sampleUpd 2] (some 3) (fun _ => rfl) rfl rfl
      hfetch rfl rfl
    have hrun : runUpdates "7" 10 sampleReportStore [sampleUpd 1, sampleUpd 2] =
        sampleReportStore := rfl
    have hlen : (reportTasks sampleReportStore "7" sampleScanPages).length = 2 := by
      have hp : (reportTasks sampleReportStore "7" sampleScanPages).length =
          (preTasks sampleReportStore sampleScanPages).length :=
        (List.mergeSort_perm (preTasks sampleReportStore sampleScanPages)
          byCreatedAt).length_eq
      rw [hp]
      decide
    rw [h]
    show HttpOutcome.success 2 (reportTasks (runUpdates "7" 10 sampleReportStore
      [sampleUpd 1, sampleUpd 2]) "7" sampleScanPages).length = .success 2 2
    rw [hrun, hlen]

end Cron
